import Mathlib

/-!
Verification of the layout engine of `legolabels` (`src/label.py`, class `Label`).

Shallow embedding conventions:
* Python `float` arithmetic is modelled by exact rationals (`ℚ`).  All the
  claims under study are about the algorithmic structure (fit scan, shrink
  loop, centering, unit conversion), not about binary floating point
  representation error, and every concrete input used below evaluates to the
  same result under IEEE doubles and under `ℚ`.
* Python `int(x)` truncates toward zero: `pyInt`.
* Python 3 `round` rounds half to even: `roundHalfEven`.
* Python negative list indices are resolved by `pySet` (`xs[i] = v` with
  `i < 0` addresses `len xs + i`).
* PIL images are modelled by their pixel dimensions (`Img`), which is all the
  layout code reads; the overflow indicator carries an `isDots` tag so that
  theorems can speak about "the indicator" (the tag is never read by the
  algorithm).  Pixel contents only matter for the rotation round trip, where
  the dedicated `PixImage` type models `PIL.Image.transpose`.
* The label raster (`self._img`) is modelled by the list of paste operations
  performed on it (`pastes`), starting from the blank background.  In the
  source, every statement of `make` that can raise (`raise NoImagesError` on
  line 51, `list.pop` on an empty placement list in the shrink loop) executes
  before the first `paste`, so modelling `make` as an `Except`-valued function
  that either fails without a new state or returns the fully updated state is
  faithful: no partial raster mutation is observable.
* `iters` and `finalTotal` are ghost fields: `make` records in them the number
  of iterations of the shrink loop and the value of the `total_scaled_width`
  variable at loop exit.  No definition reads them; they only let theorems
  talk about the loop's behaviour.
-/

set_option maxRecDepth 16000

namespace LegoLabels

/-- Python `int()` applied to a rational: truncation toward zero. -/
def pyInt (q : ℚ) : ℤ := if q < 0 then ⌈q⌉ else ⌊q⌋

/-- Python 3 `round()` applied to a rational: round half to even. -/
def roundHalfEven (q : ℚ) : ℤ :=
  if q - ⌊q⌋ < 1/2 then ⌊q⌋
  else if 1/2 < q - ⌊q⌋ then ⌊q⌋ + 1
  else if ⌊q⌋ % 2 = 0 then ⌊q⌋ else ⌊q⌋ + 1

/-- `Label._to_px` (label.py line 110-112): `int(round(self._dpi * mm / 25.4))`. -/
def toPx (dpi : ℕ) (mm : ℚ) : ℤ := roundHalfEven ((dpi : ℚ) * mm / (254/10))

/-- Margins dictionary (keys `top`, `bottom`, `left`, `right`), in mm. -/
structure Margins where
  top : ℚ
  bottom : ℚ
  left : ℚ
  right : ℚ
deriving DecidableEq

/-- A raster image as the layout engine sees it: its pixel dimensions.
`isDots` tags the overflow indicator; no layout computation reads it. -/
structure Img where
  width : ℤ
  height : ℤ
  isDots : Bool
deriving DecidableEq

/-- One `paste` of a resized image on the label raster: the resized
dimensions, the top-left position, and the indicator tag of the source. -/
structure Paste where
  isDots : Bool
  w : ℤ
  h : ℤ
  x : ℤ
  y : ℤ
deriving DecidableEq

/-- State of a `Label` object (label.py lines 25-36).  `box` is
`((left, top), (right, bottom))` in device units, `pastes` the raster log,
`iters` / `finalTotal` ghost observations of the shrink loop. -/
structure Label where
  isVertical : Bool
  dpi : ℕ
  px : ℤ × ℤ
  images : List Img
  dotSize : ℤ
  box : (ℤ × ℤ) × (ℤ × ℤ)
  spacing : ℤ
  isMade : Bool
  pastes : List Paste
  iters : ℕ
  finalTotal : ℤ
deriving DecidableEq

/-- Errors `make` can raise: `NoImagesError` (line 52) and `IndexError`
(from `list.pop` on an empty list in the shrink loop, line 65). -/
inductive MakeErr where
  | noImages
  | indexError
deriving DecidableEq

/-- `NotAvailableError` raised by `_guard_not_made` (lines 146-149). -/
inductive GetErr where
  | notAvailable
deriving DecidableEq

/-- `Label.set_margins` (lines 92-98): recompute the content box corners.
Note there is no validation of any kind in the source. -/
def setMargins (l : Label) (m : Margins) : Label :=
  { l with box := ((toPx l.dpi m.left, toPx l.dpi m.top),
                   (l.px.1 - toPx l.dpi m.right, l.px.2 - toPx l.dpi m.bottom)) }

/-- `Label.set_spacing` (lines 84-90). -/
def setSpacing (l : Label) (mm : ℚ) : Label :=
  { l with spacing := toPx l.dpi mm }

/-- `Label.__init__` (lines 25-36): orientation canonicalization (swap when
`height_mm > width_mm`), unit conversion, blank raster, then
`set_margins` and `set_spacing`. -/
def mkLabel (widthMm heightMm : ℚ) (m : Margins) (spacingMm : ℚ) (dpi : ℕ)
    (dotMm : ℚ) : Label :=
  let isV : Bool := widthMm < heightMm
  let w : ℚ := if isV then heightMm else widthMm
  let h : ℚ := if isV then widthMm else heightMm
  let base : Label :=
    { isVertical := isV
      dpi := dpi
      px := (toPx dpi w, toPx dpi h)
      images := []
      dotSize := toPx dpi dotMm
      box := ((0, 0), (0, 0))
      spacing := 0
      isMade := false
      pastes := []
      iters := 0
      finalTotal := 0 }
  setSpacing (setMargins base m) spacingMm

/-- `Label.add_image` (lines 38-47): the stored copy is rotated 90 degrees
when the label is vertical (dimensions swap). -/
def addImage (l : Label) (w h : ℤ) : Label :=
  { l with images := l.images ++ [if l.isVertical then ⟨h, w, false⟩ else ⟨w, h, false⟩] }

/-- Usable content-box width `max_width` (line 53). -/
def usableWidth (l : Label) : ℤ := l.box.2.1 - l.box.1.1

/-- Usable content-box height `max_height` (line 54). -/
def usableHeight (l : Label) : ℤ := l.box.2.2 - l.box.1.2

/-- Per-image scale factors (line 55): `_scale_factor(x.height, max_height)
= max_height / x.height` for each stored image. -/
def scaleFactors (l : Label) : List ℚ :=
  l.images.map fun im => (usableHeight l : ℚ) / (im.height : ℚ)

/-- Loop body of `Label._fit_count` (lines 118-125), walking the images
paired with their scale factors, with the running `width` budget. -/
def fitGo : List (Img × ℚ) → ℚ → ℤ → ℕ
  | [], _, _ => 0
  | (im, f) :: rest, w, s =>
    let w1 := w - (im.width : ℚ) * f
    if w1 ≤ 0 then 0 else fitGo rest (w1 - (s : ℚ)) s + 1

/-- `Label._fit_count(scale_factors, max_width)` as called on line 57. -/
def fitCountL (l : Label) : ℕ :=
  fitGo (l.images.zip (scaleFactors l)) ((usableWidth l : ℤ) : ℚ) l.spacing

/-- `Label._total_scaled_width` (lines 127-129):
`sum(int(x.width * scale_factors[i]) for i, x in enumerate(images))
 + spacing * (len(images) - 1)`. -/
def totalScaledWidth (imgs : List Img) (sf : List ℚ) (s : ℤ) : ℤ :=
  (List.zipWith (fun im f => pyInt ((im.width : ℚ) * f)) imgs sf).sum
    + s * ((imgs.length : ℤ) - 1)

/-- `Label._dotdotdot_img` (lines 131-144), reduced to the dimensions of the
returned base panel: width `dot_size * 4 + 1` (or `dot_size + 1` after the
90-degree rotation when vertical), height = content-box height. -/
def dotImg (l : Label) : Img :=
  ⟨if l.isVertical then l.dotSize + 1 else l.dotSize * 4 + 1, usableHeight l, true⟩

/-- Python list assignment `xs[i] = v` with possibly negative index `i`. -/
def pySet (xs : List ℚ) (i : ℤ) (v : ℚ) : List ℚ :=
  if 0 ≤ i then xs.set i.toNat v else xs.set ((xs.length : ℤ) + i).toNat v

/-- Python `images.pop(len(images) - 2)` (line 65): on `[]` this is an
`IndexError`; on a one-element list the index is `-1`, removing the only
element; otherwise it removes the second-to-last element. -/
def popPenultimate : List Img → Option (List Img)
  | [] => none
  | x :: xs => some ((x :: xs).eraseIdx ((x :: xs).length - 2))

/-- The `while total_scaled_width > max_width` shrink loop (lines 64-67),
fuel-indexed so that it is structurally recursive; `shrinkLoop` supplies
fuel `length + 1`, which is never exhausted because every iteration removes
one element (or raises on the empty list).  Returns the final placement
list, scale-factor list, the final `total_scaled_width`, and the number of
iterations executed. -/
def shrinkGo : ℕ → List Img → List ℚ → ℤ → ℤ → ℤ →
    Except MakeErr (List Img × List ℚ × ℤ × ℕ)
  | 0, _, _, _, _, _ => .error .indexError
  | fuel + 1, imgs, sf, total, wBound, s =>
    if total ≤ wBound then .ok (imgs, sf, total, 0)
    else
      match popPenultimate imgs with
      | none => .error .indexError
      | some imgs1 =>
        let sf1 := pySet sf ((imgs1.length : ℤ) - 1) 1
        let total1 := totalScaledWidth imgs1 sf1 s
        match shrinkGo fuel imgs1 sf1 total1 wBound s with
        | .error e => .error e
        | .ok (a, b, c, n) => .ok (a, b, c, n + 1)

/-- The shrink loop entered with the placement list of `make`. -/
def shrinkLoop (imgs : List Img) (sf : List ℚ) (total wBound s : ℤ) :
    Except MakeErr (List Img × List ℚ × ℤ × ℕ) :=
  shrinkGo (imgs.length + 1) imgs sf total wBound s

/-- The paste loop of `make` (lines 70-73): resize each image to
`(int(w * f), int(h * f))`, paste at the running position, advance x by the
resized width plus spacing. -/
def render : List (Img × ℚ) → ℤ → ℤ → ℤ → List Paste
  | [], _, _, _ => []
  | (im, f) :: rest, x, y, s =>
    let w := pyInt ((im.width : ℚ) * f)
    let h := pyInt ((im.height : ℚ) * f)
    ⟨im.isDots, w, h, x, y⟩ :: render rest (x + w + s) y s

/-- The `total_scaled_width` of the placement list just after the indicator
is appended (line 62) — computed with the not-yet-updated scale factors, so
the indicator is weighted by the first non-fitting image's factor. -/
def staleTotal (l : Label) : ℤ :=
  totalScaledWidth (l.images.take (fitCountL l) ++ [dotImg l]) (scaleFactors l) l.spacing

/-- `Label.make` (lines 49-74), faithful to the source:
line 51-52 `NoImagesError`; line 57 fit count; line 58 slice copy of the
stored list; lines 60-63 overflow case — append the indicator, compute
`total_scaled_width` BEFORE the indicator's scale factor is forced to 1,
then run the shrink loop on that (possibly stale) total; line 68 centering
with Python `int()`; lines 70-73 paste loop; line 74 made flag. -/
def make (l : Label) : Except MakeErr Label :=
  if l.images.isEmpty then .error .noImages
  else
    let maxW := usableWidth l
    let sf := scaleFactors l
    let k := fitCountL l
    if k < l.images.length then
      let imgs := l.images.take k ++ [dotImg l]
      let stale := totalScaledWidth imgs sf l.spacing
      let sf1 := pySet sf (k : ℤ) 1
      match shrinkLoop imgs sf1 stale maxW l.spacing with
      | .error e => .error e
      | .ok (a, b, c, n) =>
        let x0 := pyInt ((maxW : ℚ) / 2 - (c : ℚ) / 2) + l.box.1.1
        .ok { l with pastes := l.pastes ++ render (a.zip b) x0 l.box.1.2 l.spacing
                     isMade := true, iters := n, finalTotal := c }
    else
      let imgs := l.images.take k
      let c := totalScaledWidth imgs sf l.spacing
      let x0 := pyInt ((maxW : ℚ) / 2 - (c : ℚ) / 2) + l.box.1.1
      .ok { l with pastes := l.pastes ++ render (imgs.zip sf) x0 l.box.1.2 l.spacing
                   isMade := true, iters := 0, finalTotal := c }

/-- `Label.get_img` (lines 100-108), reduced to the dimensions of the
returned image: `ROTATE_270` swaps the dimensions when the label is
vertical. -/
def getImg (l : Label) : Except GetErr (ℤ × ℤ) :=
  if l.isMade then .ok (if l.isVertical then (l.px.2, l.px.1) else l.px)
  else .error .notAvailable

/-- A raster image with pixel contents, for the rotation round trip of
`add_image` / `get_img`. -/
structure PixImage where
  width : ℕ
  height : ℕ
  pix : ℕ → ℕ → ℕ

/-- `PIL.Image.transpose(Image.ROTATE_90)`: 90 degrees counterclockwise.
The destination pixel `(x, y)` comes from source pixel `(W - 1 - y, x)`. -/
def rot90 (p : PixImage) : PixImage :=
  ⟨p.height, p.width, fun x y => p.pix (p.width - 1 - y) x⟩

/-- `PIL.Image.transpose(Image.ROTATE_270)`: 90 degrees clockwise.
The destination pixel `(x, y)` comes from source pixel `(y, H - 1 - x)`. -/
def rot270 (p : PixImage) : PixImage :=
  ⟨p.height, p.width, fun x y => p.pix y (p.height - 1 - x)⟩

/-- Total width actually occupied by a list of pastes: sum of the pasted
(resized) widths plus interior spacing. -/
def placedWidth (ps : List Paste) (s : ℤ) : ℤ :=
  (ps.map Paste.w).sum + s * ((ps.length : ℤ) - 1)

/-- The running budget of the spec's fit-scan description, stated from the
spec's own words for comparison with `_fit_count`: after considering item
`i`, the budget is `W` minus the scaled widths of items `0..i` minus `i`
spacings (one after each item that fit). -/
def specBudget (pairs : List (Img × ℚ)) (w : ℚ) (s : ℤ) (i : ℕ) : ℚ :=
  w - (((pairs.take (i + 1)).map fun p => (p.1.width : ℚ) * p.2).sum) - (s : ℚ) * (i : ℚ)

/-- Zero margins. -/
def m0 : Margins := ⟨0, 0, 0, 0⟩

instance : DecidableEq (Except MakeErr Label) := fun a b =>
  match a, b with
  | .ok x, .ok y =>
    if h : x = y then .isTrue (congrArg Except.ok h)
    else .isFalse fun hh => h (Except.ok.inj hh)
  | .error x, .error y =>
    if h : x = y then .isTrue (congrArg Except.error h)
    else .isFalse fun hh => h (Except.error.inj hh)
  | .ok _, .error _ => .isFalse fun hh => Except.noConfusion hh
  | .error _, .ok _ => .isFalse fun hh => Except.noConfusion hh

/-- Concrete run for C1: 3 mm x 1 mm label at 254 dpi (so 1 mm = 10 px),
no margins, no spacing, 2 mm dots, one 300 x 100 image.  Content box is
30 x 10, the image scales to exactly 30 px and does not fit (the budget
reaches exactly 0), the indicator panel is 81 px wide. -/
def c1lbl : Label := addImage (mkLabel 3 1 m0 0 254 2) 300 100

/-- Concrete run for C2: margins 2 mm left and right on a 3 mm wide label
make the usable width negative (-10 px); spacing 2 mm (20 px). -/
def c2lbl : Label := addImage (mkLabel 3 1 ⟨0, 0, 2, 2⟩ 2 254 2) 300 100

/-- Concrete run for C3's witness: two images that both fit. -/
def c3lbl : Label := addImage (addImage (mkLabel 3 1 m0 0 254 2) 13 10) 14 10

/-- Concrete run for C4: a single 31 x 10 image on a 30 x 10 content box;
the shrink loop pops the indicator itself and runs 1 = N iteration. -/
def c4lbl : Label := addImage (mkLabel 3 1 m0 0 254 2) 31 10

/-- Concrete run for C5's witness: a label with no images added. -/
def c5lbl : Label := mkLabel 2 1 m0 0 254 1

/-- Concrete vertical made label for C7's witness. -/
def c7lbl : Label := { mkLabel 1 3 m0 0 254 1 with isMade := true }

/-- Concrete pixel image for C7's witness. -/
def p7 : PixImage := ⟨2, 3, fun a b => 10 * a + b⟩

/-- Concrete run for C8: 40 x 10 content box, one 400 x 100 image
(scales to exactly 40, does not fit), indicator 81 px: the shrink loop's
entry check uses the stale total 8, so the indicator is placed at x = 16
although the true placement width is 81. -/
def c8lbl : Label := addImage (mkLabel 4 1 m0 0 254 2) 400 100

/-- Concrete run for C8's witness: an all-fit layout. -/
def c8wlbl : Label := addImage (mkLabel 3 1 m0 0 254 2) 12 10

/-- Expected result of `make c8wlbl`. -/
def c8wres : Label :=
  { c8wlbl with pastes := [⟨false, 12, 10, 9, 0⟩], isMade := true, iters := 0, finalTotal := 12 }

/-- Concrete run for C9's witness: an all-fit layout. -/
def c9lbl : Label := addImage (mkLabel 3 1 m0 0 254 2) 10 10

/-- Expected result of `make c9lbl`. -/
def c9res : Label :=
  { c9lbl with pastes := [⟨false, 10, 10, 10, 0⟩], isMade := true, iters := 0, finalTotal := 10 }

/-- Concrete run for C10: one 310 x 100 image on the 30 x 10 box; overflow
with indicator (81 px) wider than the box, yet the stale entry total 8
passes the shrink check and the indicator is placed. -/
def c10lbl : Label := addImage (mkLabel 3 1 m0 0 254 2) 310 100

/-- Concrete run for C10's witness: one 32 x 10 image; here the stale total
is 81 > 30, the loop runs and empties the placement list. -/
def c10wlbl : Label := addImage (mkLabel 3 1 m0 0 254 2) 32 10

/-- Helper: the spec budget after item 0 of a non-empty walk. -/
theorem specBudget_cons_zero (im : Img) (f : ℚ) (rest : List (Img × ℚ)) (w : ℚ) (s : ℤ) :
    specBudget ((im, f) :: rest) w s 0 = w - (im.width : ℚ) * f := by
  simp [specBudget]

/-- Helper: peeling one item off the spec budget shifts the start budget. -/
theorem specBudget_cons_succ (im : Img) (f : ℚ) (rest : List (Img × ℚ)) (w : ℚ) (s : ℤ)
    (j : ℕ) :
    specBudget ((im, f) :: rest) w s (j + 1)
      = specBudget rest (w - (im.width : ℚ) * f - (s : ℚ)) s j := by
  simp only [specBudget, List.take_succ_cons, List.map_cons, List.sum_cons]
  push_cast
  ring

/-- Helper: first-index characterization of the `_fit_count` walk in terms of
the spec's running budget. -/
theorem fitGo_char (pairs : List (Img × ℚ)) (w : ℚ) (s : ℤ) :
    fitGo pairs w s ≤ pairs.length
    ∧ (∀ j, j < fitGo pairs w s → 0 < specBudget pairs w s j)
    ∧ (fitGo pairs w s < pairs.length → specBudget pairs w s (fitGo pairs w s) ≤ 0) := by
  induction pairs generalizing w with
  | nil => simp [fitGo]
  | cons p rest ih =>
    obtain ⟨im, f⟩ := p
    by_cases h : w - (im.width : ℚ) * f ≤ 0
    · have hf : fitGo ((im, f) :: rest) w s = 0 := by simp [fitGo, h]
      refine ⟨by simp [hf], ?_, ?_⟩
      · intro j hj
        rw [hf] at hj
        exact absurd hj (Nat.not_lt_zero j)
      · intro _
        rw [hf, specBudget_cons_zero]
        exact h
    · have hf : fitGo ((im, f) :: rest) w s
          = fitGo rest (w - (im.width : ℚ) * f - (s : ℚ)) s + 1 := by
        simp [fitGo, h]
      obtain ⟨ih1, ih2, ih3⟩ := ih (w - (im.width : ℚ) * f - (s : ℚ))
      refine ⟨?_, ?_, ?_⟩
      · rw [hf]
        simpa using Nat.succ_le_succ ih1
      · intro j hj
        rw [hf] at hj
        cases j with
        | zero =>
          rw [specBudget_cons_zero]
          linarith [not_le.1 h]
        | succ j1 =>
          rw [specBudget_cons_succ]
          exact ih2 j1 (Nat.lt_of_succ_lt_succ hj)
      · intro hlt
        rw [hf] at hlt ⊢
        rw [specBudget_cons_succ]
        exact ih3 (Nat.lt_of_succ_lt_succ hlt)

/-- Helper: the zip of the images with their scale factors has the length of
the image list. -/
theorem length_zip_scaleFactors (l : Label) :
    (l.images.zip (scaleFactors l)).length = l.images.length := by
  simp [scaleFactors]

/-- C3.  `_fit_count` with per-item scale factor `H / naturalHeight` returns
exactly the first index at which the spec's running budget (start at `W`,
subtract the item's scaled width, test `<= 0`, subtract the spacing for
items that fit) is exhausted, and the total item count when no item
exhausts it. -/
theorem c3_fit_count_characterization (l : Label) (j : ℕ) :
    fitCountL l ≤ l.images.length
    ∧ (j < fitCountL l →
        0 < specBudget (l.images.zip (scaleFactors l)) ((usableWidth l : ℤ) : ℚ) l.spacing j)
    ∧ (fitCountL l < l.images.length →
        specBudget (l.images.zip (scaleFactors l)) ((usableWidth l : ℤ) : ℚ) l.spacing
          (fitCountL l) ≤ 0)
    ∧ ((∀ i, i < l.images.length →
          0 < specBudget (l.images.zip (scaleFactors l)) ((usableWidth l : ℤ) : ℚ) l.spacing i) →
        fitCountL l = l.images.length) := by
  obtain ⟨h1, h2, h3⟩ :=
    fitGo_char (l.images.zip (scaleFactors l)) ((usableWidth l : ℤ) : ℚ) l.spacing
  rw [length_zip_scaleFactors] at h1 h3
  refine ⟨h1, fun hj => h2 j hj, h3, ?_⟩
  intro hall
  rcases Nat.lt_or_ge (fitCountL l) l.images.length with hlt | hge
  · exact absurd (h3 hlt) (not_le.2 (hall (fitCountL l) hlt))
  · exact le_antisymm h1 hge

/-- Witness for C3 on a two-image all-fit label: the budget after item 0 is
positive, and since every budget stays positive the fit count is the item
count. -/
theorem c3_fit_count_characterization_witness :
    0 < specBudget (c3lbl.images.zip (scaleFactors c3lbl)) ((usableWidth c3lbl : ℤ) : ℚ)
        c3lbl.spacing 0
    ∧ fitCountL c3lbl = c3lbl.images.length :=
  ⟨(c3_fit_count_characterization c3lbl 0).2.1 (by with_unfolding_all decide),
   (c3_fit_count_characterization c3lbl 0).2.2.2 (by with_unfolding_all decide)⟩

/-- Helper: Python truncation of a non-negative rational is its floor. -/
theorem pyInt_eq_floor (q : ℚ) (h : 0 ≤ q) : pyInt q = ⌊q⌋ :=
  if_neg (not_lt.2 h)

/-- Helper: Python truncation of a non-negative rational is non-negative. -/
theorem pyInt_nonneg_of (q : ℚ) (h : 0 ≤ q) : 0 ≤ pyInt q := by
  rw [pyInt_eq_floor q h]
  exact Int.floor_nonneg.2 h

/-- Helper: Python truncation of an integer is itself. -/
theorem pyInt_intCast (n : ℤ) : pyInt (n : ℚ) = n := by
  unfold pyInt
  split
  · exact Int.ceil_intCast n
  · exact Int.floor_intCast n

/-- Helper: Python truncation of a non-negative rational is at most it. -/
theorem pyInt_le (q : ℚ) (h : 0 ≤ q) : (pyInt q : ℚ) ≤ q := by
  rw [pyInt_eq_floor q h]
  exact Int.floor_le q

/-- Helper: `pySet` preserves the list length. -/
theorem length_pySet (xs : List ℚ) (i : ℤ) (v : ℚ) : (pySet xs i v).length = xs.length := by
  unfold pySet
  split <;> exact List.length_set ..

/-- Helper: a member of `pySet xs i v` is a member of `xs` or is `v`. -/
theorem mem_pySet (xs : List ℚ) (i : ℤ) (v : ℚ) (x : ℚ) (hx : x ∈ pySet xs i v) :
    x ∈ xs ∨ x = v := by
  unfold pySet at hx
  split at hx <;> exact List.mem_or_eq_of_mem_set hx

/-- Helper: `pySet` at a non-negative index is plain `List.set`. -/
theorem pySet_ofNat (xs : List ℚ) (n : ℕ) (v : ℚ) : pySet xs (n : ℤ) v = xs.set n v := by
  unfold pySet
  rw [if_pos (Int.ofNat_nonneg n)]
  simp

/-- Helper: `pySet` at a non-negative index that is in range writes there. -/
theorem pySet_get_self (xs : List ℚ) (n : ℕ) (v : ℚ) (h : n < (pySet xs (n : ℤ) v).length) :
    (pySet xs (n : ℤ) v).get ⟨n, h⟩ = v := by
  rw [List.get_eq_getElem]
  simp only [pySet_ofNat] at h ⊢
  exact List.getElem_set_self h

/-- Helper: `popPenultimate` on a non-empty list erases index `length - 2`. -/
theorem popPenultimate_eq (l : List Img) (h : l ≠ []) :
    popPenultimate l = some (l.eraseIdx (l.length - 2)) := by
  cases l with
  | nil => exact absurd rfl h
  | cons a as => rfl

/-- Helper: `popPenultimate` on a singleton empties the list (the Python
index is `-1`). -/
theorem popPenultimate_single (d : Img) : popPenultimate [d] = some [] := rfl

/-- Helper: `popPenultimate` with at least two elements drops the
second-to-last, keeping the final element in place. -/
theorem popPenultimate_append_pair (zs : List Img) (y d : Img) :
    popPenultimate (zs ++ [y] ++ [d]) = some (zs ++ [d]) := by
  rw [popPenultimate_eq _ (by simp)]
  congr 1
  have hlen : (zs ++ [y] ++ [d]).length - 2 = zs.length := by simp
  rw [hlen, List.append_assoc, List.eraseIdx_append_of_length_le (le_refl zs.length)]
  simp

/-- Helper: one exit step of the shrink loop. -/
theorem shrinkGo_step_exit (fuel : ℕ) (imgs : List Img) (sf : List ℚ) (total wBound s : ℤ)
    (h : total ≤ wBound) :
    shrinkGo (fuel + 1) imgs sf total wBound s = .ok (imgs, sf, total, 0) := by
  unfold shrinkGo
  rw [if_pos h]

/-- Helper: one pop step of the shrink loop. -/
theorem shrinkGo_step_pop (fuel : ℕ) (imgs : List Img) (sf : List ℚ) (total wBound s : ℤ)
    (imgs1 : List Img) (h : ¬ total ≤ wBound) (hp : popPenultimate imgs = some imgs1) :
    shrinkGo (fuel + 1) imgs sf total wBound s =
      (match shrinkGo fuel imgs1 (pySet sf ((imgs1.length : ℤ) - 1) 1)
          (totalScaledWidth imgs1 (pySet sf ((imgs1.length : ℤ) - 1) 1) s) wBound s with
       | .error e => .error e
       | .ok (a, b, c, n) => .ok (a, b, c, n + 1)) := by
  conv_lhs => unfold shrinkGo
  rw [if_neg h, hp]

/-- Helper: the total over an empty placement list is minus the spacing. -/
theorem totalScaledWidth_nil (sf : List ℚ) (s : ℤ) : totalScaledWidth [] sf s = -s := by
  simp [totalScaledWidth]

/-- Helper: each truncated scaled width in the total is non-negative when
all widths and all scale factors are. -/
theorem zipWith_pyInt_nonneg (imgs : List Img) (sf : List ℚ)
    (hi : ∀ im ∈ imgs, 0 ≤ im.width) (hf : ∀ f ∈ sf, 0 ≤ f) :
    ∀ x ∈ List.zipWith (fun im f => pyInt ((im.width : ℚ) * f)) imgs sf, 0 ≤ x := by
  induction imgs generalizing sf with
  | nil => simp
  | cons a as ih =>
    cases sf with
    | nil => simp
    | cons b bs =>
      intro x hx
      simp only [List.zipWith_cons_cons, List.mem_cons] at hx
      rcases hx with rfl | hx
      · refine pyInt_nonneg_of _ (mul_nonneg ?_ (hf b (by simp)))
        exact_mod_cast hi a (by simp)
      · exact ih bs (fun im h => hi im (by simp [h])) (fun f h => hf f (by simp [h])) x hx

/-- Helper: zipping a list ending in a singleton against a longer list. -/
theorem zipWith_append_single (g : Img → ℚ → ℤ) (ys : List Img) (d : Img) (sf : List ℚ)
    (h : ys.length < sf.length) :
    List.zipWith g (ys ++ [d]) sf
      = List.zipWith g ys sf ++ [g d (sf.get ⟨ys.length, h⟩)] := by
  induction ys generalizing sf with
  | nil =>
    cases sf with
    | nil => exact absurd h (by simp)
    | cons b bs => simp
  | cons a as ih =>
    cases sf with
    | nil => exact absurd h (by simp)
    | cons b bs =>
      have hbs : as.length < bs.length := by
        simpa using Nat.lt_of_succ_lt_succ h
      simp only [List.cons_append, List.zipWith_cons_cons, ih bs hbs]
      rfl

/-- Helper: the total of a placement list ending in the indicator splits
into the real images' part, the indicator's part, and the spacing part. -/
theorem totalScaledWidth_append_ind (ys : List Img) (d : Img) (sf : List ℚ) (s : ℤ)
    (h : ys.length < sf.length) :
    totalScaledWidth (ys ++ [d]) sf s
      = (List.zipWith (fun im f => pyInt ((im.width : ℚ) * f)) ys sf).sum
        + pyInt ((d.width : ℚ) * sf.get ⟨ys.length, h⟩) + s * (ys.length : ℤ) := by
  unfold totalScaledWidth
  rw [zipWith_append_single _ _ _ _ h, List.sum_append]
  simp only [List.sum_cons, List.sum_nil, add_zero, List.length_append, List.length_cons,
    List.length_nil]
  push_cast
  ring

/-- Helper: any `ok` result of the shrink loop has its final total within
the width bound (that is the loop's exit condition). -/
theorem shrinkGo_exit_le (fuel : ℕ) (imgs : List Img) (sf : List ℚ) (total wBound s : ℤ)
    (a : List Img) (b : List ℚ) (c : ℤ) (n : ℕ)
    (h : shrinkGo fuel imgs sf total wBound s = .ok (a, b, c, n)) : c ≤ wBound := by
  induction fuel generalizing imgs sf total a b c n with
  | zero => exact absurd h (by simp [shrinkGo])
  | succ f ih =>
    unfold shrinkGo at h
    split at h
    · rename_i hle
      simp only [Except.ok.injEq, Prod.mk.injEq] at h
      obtain ⟨-, -, rfl, -⟩ := h
      exact hle
    · split at h
      · exact absurd h (by simp)
      · dsimp only at h
        split at h
        · exact absurd h (by simp)
        · rename_i heq
          simp only [Except.ok.injEq, Prod.mk.injEq] at h
          obtain ⟨rfl, rfl, rfl, rfl⟩ := h
          exact ih _ _ _ _ _ _ _ heq

/-- Helper: with enough fuel, non-negative spacing and a non-negative width
bound, the shrink loop cannot raise: it reaches an exit, in at most as many
iterations as the entry placement list is long. -/
theorem shrinkGo_ok (fuel : ℕ) (imgs : List Img) (sf : List ℚ) (total wBound s : ℤ)
    (hfuel : imgs.length < fuel) (hs : 0 ≤ s) (hW : 0 ≤ wBound)
    (hstart : imgs ≠ [] ∨ total ≤ wBound) :
    ∃ a b c n, shrinkGo fuel imgs sf total wBound s = .ok (a, b, c, n)
      ∧ n ≤ imgs.length := by
  induction fuel generalizing imgs sf total with
  | zero => omega
  | succ f ih =>
    by_cases hle : total ≤ wBound
    · exact ⟨imgs, sf, total, 0, shrinkGo_step_exit f imgs sf total wBound s hle, Nat.zero_le _⟩
    · have hne : imgs ≠ [] := by
        rcases hstart with h | h
        · exact h
        · exact absurd h hle
      have hp := popPenultimate_eq imgs hne
      set imgs1 := imgs.eraseIdx (imgs.length - 2) with himgs1
      have hlen1 : imgs1.length + 1 = imgs.length := by
        apply List.length_eraseIdx_add_one
        have : imgs.length ≠ 0 := fun h0 => hne (List.length_eq_zero.1 h0)
        omega
      have hfuel1 : imgs1.length < f := by omega
      have hstart1 : imgs1 ≠ [] ∨
          totalScaledWidth imgs1 (pySet sf ((imgs1.length : ℤ) - 1) 1) s ≤ wBound := by
        by_cases h1 : imgs1 = []
        · right
          rw [h1, totalScaledWidth_nil]
          omega
        · exact Or.inl h1
      obtain ⟨a, b, c, n, hok, hn⟩ := ih imgs1 (pySet sf ((imgs1.length : ℤ) - 1) 1)
        (totalScaledWidth imgs1 (pySet sf ((imgs1.length : ℤ) - 1) 1) s) hfuel1 hstart1
      refine ⟨a, b, c, n + 1, ?_, by omega⟩
      rw [shrinkGo_step_pop f imgs sf total wBound s imgs1 hle hp, hok]

/-- Helper: when the indicator is the last element, is wider than the
bound, all real widths and scale factors are non-negative and spacing is
non-negative, a shrink loop entered with an over-budget total empties the
whole placement list (popping the indicator last, through the negative
Python index) and exits with total `-s`, after `length + 1` iterations. -/
theorem shrinkGo_empties (ys : List Img) (d : Img) (sf : List ℚ) (total wBound s : ℤ)
    (fuel : ℕ) (hfuel : ys.length + 2 ≤ fuel) (hlen : ys.length + 1 ≤ sf.length)
    (hW : 0 ≤ wBound) (hs : 0 ≤ s) (hd : wBound < d.width)
    (hys : ∀ im ∈ ys, 0 ≤ im.width) (hsf : ∀ f ∈ sf, 0 ≤ f)
    (htotal : wBound < total) :
    ∃ b, shrinkGo fuel (ys ++ [d]) sf total wBound s = .ok ([], b, -s, ys.length + 1) := by
  induction ys using List.reverseRecOn generalizing sf total fuel with
  | nil =>
    obtain ⟨f, rfl⟩ : ∃ f, fuel = f + 1 := ⟨fuel - 1, by simp at hfuel; omega⟩
    simp only [List.nil_append, List.length_nil]
    rw [shrinkGo_step_pop f [d] sf total wBound s [] (not_le.2 htotal)
      (popPenultimate_single d)]
    obtain ⟨f2, rfl⟩ : ∃ f2, f = f2 + 1 := ⟨f - 1, by simp at hfuel; omega⟩
    rw [totalScaledWidth_nil, shrinkGo_step_exit f2 _ _ _ _ _ (by omega)]
    exact ⟨_, rfl⟩
  | append_singleton zs y ih =>
    obtain ⟨f, rfl⟩ : ∃ f, fuel = f + 1 := ⟨fuel - 1, by simp at hfuel; omega⟩
    rw [shrinkGo_step_pop f (zs ++ [y] ++ [d]) sf total wBound s (zs ++ [d])
      (not_le.2 htotal) (popPenultimate_append_pair zs y d)]
    have hidx : ((zs ++ [d]).length : ℤ) - 1 = ((zs.length : ℕ) : ℤ) := by simp
    rw [hidx, pySet_ofNat]
    have hzslt : zs.length < (sf.set zs.length 1).length := by
      rw [List.length_set]
      simp only [List.length_append, List.length_cons, List.length_nil] at hlen
      omega
    have hsf1 : ∀ g ∈ sf.set zs.length 1, 0 ≤ g := by
      intro g hg
      rcases List.mem_or_eq_of_mem_set hg with hg1 | rfl
      · exact hsf g hg1
      · norm_num
    have hget : (sf.set zs.length 1).get ⟨zs.length, hzslt⟩ = 1 := by
      rw [List.get_eq_getElem]
      exact List.getElem_set_self hzslt
    have htot1 : wBound < totalScaledWidth (zs ++ [d]) (sf.set zs.length 1) s := by
      rw [totalScaledWidth_append_ind zs d _ s hzslt, hget]
      have h1 : 0 ≤ (List.zipWith (fun im f => pyInt ((im.width : ℚ) * f)) zs
          (sf.set zs.length 1)).sum :=
        List.sum_nonneg (zipWith_pyInt_nonneg zs _
          (fun im h => hys im (by simp [h])) hsf1)
      have h2 : 0 ≤ s * (zs.length : ℤ) := mul_nonneg hs (by positivity)
      have h3 : pyInt ((d.width : ℚ) * 1) = d.width := by
        rw [mul_one, pyInt_intCast]
      omega
    obtain ⟨b, hb⟩ := ih (sf.set zs.length 1)
      (totalScaledWidth (zs ++ [d]) (sf.set zs.length 1) s) f
      (by simp only [List.length_append, List.length_cons, List.length_nil] at hfuel; omega)
      (by rw [List.length_set]
          simp only [List.length_append, List.length_cons, List.length_nil] at hlen
          omega)
      (fun im h => hys im (by simp [h])) hsf1 htot1
    rw [hb]
    exact ⟨b, by simp⟩

/-- Helper: `make` on the overflow branch, written through the shrink
loop's entry state (the stale total of line 62, the scale-factor update of
line 63). -/
theorem make_overflow (l : Label) (hne : l.images ≠ [])
    (hk : fitCountL l < l.images.length) :
    make l =
      (match shrinkLoop (l.images.take (fitCountL l) ++ [dotImg l])
          (pySet (scaleFactors l) ((fitCountL l : ℕ) : ℤ) 1) (staleTotal l)
          (usableWidth l) l.spacing with
       | .error e => .error e
       | .ok (a, b, c, n) =>
         .ok { l with pastes := l.pastes ++ render (a.zip b) (pyInt ((usableWidth l : ℚ) / 2 - (c : ℚ) / 2) + l.box.1.1) l.box.1.2 l.spacing, isMade := true, iters := n, finalTotal := c }) := by
  unfold make
  rw [if_neg (by simpa using hne)]
  dsimp only
  rw [if_pos hk]
  rfl

/-- Helper: `make` on the all-fit branch. -/
theorem make_nonoverflow (l : Label) (hne : l.images ≠ [])
    (hk : ¬ fitCountL l < l.images.length) :
    make l = .ok { l with pastes := l.pastes ++ render ((l.images.take (fitCountL l)).zip (scaleFactors l)) (pyInt ((usableWidth l : ℚ) / 2 - (totalScaledWidth (l.images.take (fitCountL l)) (scaleFactors l) l.spacing : ℚ) / 2) + l.box.1.1) l.box.1.2 l.spacing, isMade := true, iters := 0, finalTotal := totalScaledWidth (l.images.take (fitCountL l)) (scaleFactors l) l.spacing } := by
  unfold make
  rw [if_neg (by simpa using hne)]
  dsimp only
  rw [if_neg hk]

/-- Helper: `render` produces one paste per placed image. -/
theorem length_render (ps : List (Img × ℚ)) (x y s : ℤ) :
    (render ps x y s).length = ps.length := by
  induction ps generalizing x with
  | nil => rfl
  | cons p rest ih =>
    obtain ⟨im, f⟩ := p
    simp [render, ih]

/-- Helper: the i-th paste of `render` sits at the start x plus the widths
and spacings of all earlier pastes, at the fixed y. -/
theorem render_get (ps : List (Img × ℚ)) (x y s : ℤ) (i : ℕ)
    (hi : i < (render ps x y s).length) :
    ((render ps x y s).get ⟨i, hi⟩).x
        = x + (((render ps x y s).take i).map (fun p => p.w + s)).sum
    ∧ ((render ps x y s).get ⟨i, hi⟩).y = y := by
  induction ps generalizing x i with
  | nil => simp [render] at hi
  | cons p rest ih =>
    obtain ⟨im, f⟩ := p
    cases i with
    | zero => exact ⟨by simp [render], by simp [render]⟩
    | succ j =>
      have hj : j < (render rest (x + pyInt ((im.width : ℚ) * f) + s) y s).length := by
        have := hi
        simp only [render, List.length_cons] at this
        omega
      obtain ⟨ih1, ih2⟩ := ih (x + pyInt ((im.width : ℚ) * f) + s) j hj
      constructor
      · show ((render ((im, f) :: rest) x y s).get ⟨j + 1, hi⟩).x = _
        simp only [render, List.get_eq_getElem, List.getElem_cons_succ,
          List.take_succ_cons, List.map_cons, List.sum_cons]
        rw [List.get_eq_getElem] at ih1
        rw [ih1]
        ring
      · show ((render ((im, f) :: rest) x y s).get ⟨j + 1, hi⟩).y = y
        simp only [render, List.get_eq_getElem, List.getElem_cons_succ]
        rw [List.get_eq_getElem] at ih2
        rw [ih2]

/-- Helper: truncated scaled widths are bounded by the exact scaled widths
when widths and factors are non-negative. -/
theorem sum_zipWith_pyInt_le (imgs : List Img) (sf : List ℚ)
    (hi : ∀ im ∈ imgs, 0 ≤ im.width) (hf : ∀ f ∈ sf, 0 ≤ f) :
    (((List.zipWith (fun im f => pyInt ((im.width : ℚ) * f)) imgs sf).sum : ℤ) : ℚ)
      ≤ (List.zipWith (fun im f => (im.width : ℚ) * f) imgs sf).sum := by
  induction imgs generalizing sf with
  | nil => simp
  | cons a as ih =>
    cases sf with
    | nil => simp
    | cons b bs =>
      simp only [List.zipWith_cons_cons, List.sum_cons]
      rw [Int.cast_add]
      have h1 : (pyInt ((a.width : ℚ) * b) : ℚ) ≤ (a.width : ℚ) * b := by
        refine pyInt_le _ (mul_nonneg ?_ (hf b (by simp)))
        exact_mod_cast hi a (by simp)
      have h2 := ih bs (fun im h => hi im (by simp [h])) (fun f h => hf f (by simp [h]))
      exact add_le_add h1 h2

/-- Helper: mapping the scaled-width function over a zip is a `zipWith`. -/
theorem map_zip_eq_zipWith (imgs : List Img) (sf : List ℚ) :
    ((imgs.zip sf).map fun p => (p.1.width : ℚ) * p.2)
      = List.zipWith (fun im f => (im.width : ℚ) * f) imgs sf := by
  induction imgs generalizing sf with
  | nil => simp
  | cons a as ih =>
    cases sf with
    | nil => simp
    | cons b bs => simp [ih]

/-- Helper: the scale factors are non-negative whenever the content-box
height is non-negative and all image heights are positive. -/
theorem scaleFactors_nonneg (l : Label) (him : ∀ im ∈ l.images, 0 < im.height)
    (hH : 0 ≤ usableHeight l) : ∀ f ∈ scaleFactors l, 0 ≤ f := by
  intro f hf
  obtain ⟨im, him2, rfl⟩ := List.mem_map.1 hf
  refine div_nonneg ?_ ?_
  · exact_mod_cast hH
  · exact_mod_cast le_of_lt (him im him2)

/-- Helper: when every image fits, the truncated total (with interior
spacing) stays strictly below the usable width, because the fit scan's
exact running budget stayed positive through the last item. -/
theorem totalScaledWidth_lt_of_allfit (l : Label) (hne : l.images ≠ [])
    (him : ∀ im ∈ l.images, 0 ≤ im.width ∧ 0 < im.height)
    (hH : 0 ≤ usableHeight l)
    (hk : fitCountL l = l.images.length) :
    totalScaledWidth l.images (scaleFactors l) l.spacing < usableWidth l := by
  obtain ⟨m, hm⟩ : ∃ m, l.images.length = m + 1 := by
    cases hl : l.images with
    | nil => exact absurd hl hne
    | cons a as => exact ⟨as.length, by simp⟩
  have hmlt : m < fitCountL l := by omega
  have hbud := (fitGo_char (l.images.zip (scaleFactors l)) ((usableWidth l : ℤ) : ℚ)
    l.spacing).2.1 m hmlt
  have htakeall : (l.images.zip (scaleFactors l)).take (m + 1) = l.images.zip (scaleFactors l) := by
    have : (l.images.zip (scaleFactors l)).length = m + 1 := by
      rw [length_zip_scaleFactors, hm]
    rw [← this, List.take_length]
  unfold specBudget at hbud
  rw [htakeall, map_zip_eq_zipWith] at hbud
  have hsum := sum_zipWith_pyInt_le l.images (scaleFactors l) (fun im h => (him im h).1)
    (scaleFactors_nonneg l (fun im h => (him im h).2) hH)
  have hcast : ((totalScaledWidth l.images (scaleFactors l) l.spacing : ℤ) : ℚ)
      < ((usableWidth l : ℤ) : ℚ) := by
    unfold totalScaledWidth
    rw [Int.cast_add, Int.cast_mul]
    have hlen : ((((l.images.length : ℕ) : ℤ) - 1 : ℤ) : ℚ) = ((m : ℕ) : ℚ) := by
      rw [hm]
      push_cast
      ring
    rw [hlen]
    linarith
  exact_mod_cast hcast

/-- Helper: the absolute distance from `roundHalfEven q` to `q` is at most
one half — round-half-to-even is a nearest-integer rounding. -/
theorem roundHalfEven_nearest (q : ℚ) : |((roundHalfEven q : ℤ) : ℚ) - q| ≤ 1/2 := by
  unfold roundHalfEven
  have h0 : ((⌊q⌋ : ℤ) : ℚ) ≤ q := Int.floor_le q
  have h1 : q < (⌊q⌋ : ℤ) + 1 := Int.lt_floor_add_one q
  split_ifs with ha hb hc
  · rw [abs_le]; constructor <;> linarith
  · rw [abs_le]; push_cast; constructor <;> linarith
  · rw [abs_le]; constructor <;> linarith
  · rw [abs_le]; push_cast; constructor <;> linarith

/-- C1.  The claim "after the shrink loop terminates the total placement
width does not exceed the usable content-box width" fails on the code: on
`c1lbl` the fit count is 0, the loop's entry total is computed (line 62)
with the overflowing image's scale factor `0.1` weighting the 81-px
indicator, giving 8 <= 30, so the loop never runs; the indicator's factor
is then forced to 1 (line 63) and it is rendered 81 px wide on a 30-px
content box.  Exactly one indicator is placed and it is last, but the
total placement width 81 exceeds the usable width 30 — the code violates
the spec's stated invariant (a slip: line 62 computes the check before
line 63 fixes the factor). -/
theorem c1_placement_exceeds_usable_width :
    fitCountL c1lbl < c1lbl.images.length
    ∧ (make c1lbl).toOption.map
        (fun r => (r.pastes, placedWidth r.pastes c1lbl.spacing))
      = some ([⟨true, 81, 10, 11, 0⟩], 81)
    ∧ usableWidth c1lbl = 30
    ∧ ¬(81 : ℤ) ≤ 30 := by with_unfolding_all decide

/-- C2 (counterexample).  The claim says `set_margins` fails with a
configuration error when the usable width is non-positive and that `make`
re-checks and fails too.  On `c2lbl` the usable width is -10 < 0, yet
`set_margins` recorded the degenerate box without any error (there is no
validation in the source) and `make` completes normally, returning a made
label with an empty placement. -/
theorem c2_make_succeeds_without_config_error :
    usableWidth c2lbl < 0
    ∧ make c2lbl = .ok { c2lbl with isMade := true, iters := 1, finalTotal := -20 } := by
  with_unfolding_all decide

/-- C4 (counterexample).  The claim bounds the shrink loop by N - 1
iterations for N items of width >= 1 device unit.  On `c4lbl` (N = 1, one
31-px-wide image) the loop runs 1 iteration (it pops the indicator itself
via the negative Python index), exceeding the claimed bound 0. -/
theorem c4_shrink_loop_exceeds_bound :
    (make c4lbl).toOption.map (fun r => r.iters) = some 1
    ∧ c4lbl.images.length = 1
    ∧ (∀ im ∈ c4lbl.images, 1 ≤ im.width)
    ∧ ¬(1 : ℕ) ≤ 1 - 1 := by with_unfolding_all decide

/-- C5.  With zero images `make` raises `NoImagesError` first thing (line
51-52), before any computation: in this embedding an erroring `make`
produces no new state, which is faithful because the `raise` is the first
statement of the method, so the raster keeps its constructor state (no
pastes, blank background) and the made flag stays false — as witnessed by
the freshly constructed label of the last three conjuncts. -/
theorem c5_no_images_error (l : Label) (h : l.images = [])
    (wm hm : ℚ) (m : Margins) (sp : ℚ) (dpi : ℕ) (dot : ℚ) :
    make l = .error .noImages
    ∧ (mkLabel wm hm m sp dpi dot).pastes = []
    ∧ (mkLabel wm hm m sp dpi dot).isMade = false
    ∧ (mkLabel wm hm m sp dpi dot).images = [] := by
  refine ⟨?_, ?_, ?_, ?_⟩
  · simp [make, h]
  · simp [mkLabel, setMargins, setSpacing]
  · simp [mkLabel, setMargins, setSpacing]
  · simp [mkLabel, setMargins, setSpacing]

/-- Witness for C5 at a concrete empty label. -/
theorem c5_no_images_error_witness :
    c5lbl.images = []
    ∧ (make c5lbl = .error .noImages
       ∧ (mkLabel 2 1 m0 0 254 1).pastes = []
       ∧ (mkLabel 2 1 m0 0 254 1).isMade = false
       ∧ (mkLabel 2 1 m0 0 254 1).images = []) :=
  ⟨by with_unfolding_all decide, c5_no_images_error c5lbl (by with_unfolding_all decide) 2 1 m0 0 254 1⟩

/-- C6.  `_to_px` converts mm to device units as
`round(dpi * mm / 25.4)` where `round` is Python 3's round-half-to-even —
a nearest-integer rounding (distance at most 1/2), not a truncation: at
300 dpi, 1 mm gives 12 px where truncation would give 11. -/
theorem c6_to_px_round_nearest (dpi : ℕ) (mm : ℚ) :
    toPx dpi mm = roundHalfEven ((dpi : ℚ) * mm / (254/10))
    ∧ |((toPx dpi mm : ℤ) : ℚ) - (dpi : ℚ) * mm / (254/10)| ≤ 1/2
    ∧ toPx 300 1 = 12
    ∧ pyInt ((300 : ℚ) * 1 / (254/10)) = 11 :=
  ⟨rfl, roundHalfEven_nearest _, by with_unfolding_all decide, by with_unfolding_all decide⟩

/-- C7.  For a construction with `height_mm > width_mm` the label
canonicalizes to wide orientation: the rotation flag is set, the stored
pixel dimensions are swapped; `add_image` stores each image rotated 90
degrees (dimensions swapped); `get_img` on a made vertical label applies
the inverse 270-degree rotation, returning the originally requested tall
dimensions; and `ROTATE_270` after `ROTATE_90` restores every in-range
pixel and the dimensions. -/
theorem c7_orientation_round_trip (wm hm : ℚ) (m : Margins) (sp : ℚ)
    (dpi : ℕ) (dot : ℚ) (hwh : wm < hm) (iw ih : ℤ) (l : Label)
    (hv : l.isVertical = true) (hmade : l.isMade = true)
    (p : PixImage) (x y : ℕ) (hx : x < p.width) (hy : y < p.height) :
    (mkLabel wm hm m sp dpi dot).isVertical = true
    ∧ (mkLabel wm hm m sp dpi dot).px = (toPx dpi hm, toPx dpi wm)
    ∧ (addImage (mkLabel wm hm m sp dpi dot) iw ih).images = [⟨ih, iw, false⟩]
    ∧ getImg l = .ok (l.px.2, l.px.1)
    ∧ (rot270 (rot90 p)).width = p.width
    ∧ (rot270 (rot90 p)).height = p.height
    ∧ (rot270 (rot90 p)).pix x y = p.pix x y := by
  have hsub : p.width - 1 - (p.width - 1 - x) = x := by omega
  refine ⟨?_, ?_, ?_, ?_, rfl, rfl, ?_⟩
  · simp [mkLabel, setMargins, setSpacing, hwh]
  · simp [mkLabel, setMargins, setSpacing, hwh]
  · simp [addImage, mkLabel, setMargins, setSpacing, hwh]
  · simp [getImg, hv, hmade]
  · show p.pix (p.width - 1 - (p.width - 1 - x)) y = p.pix x y
    rw [hsub]

/-- Witness for C7 at a concrete tall construction, vertical made label,
and 2 x 3 pixel image evaluated at pixel (1, 2). -/
theorem c7_orientation_round_trip_witness :
    (mkLabel 1 3 m0 0 254 1).isVertical = true
    ∧ (mkLabel 1 3 m0 0 254 1).px = (toPx 254 3, toPx 254 1)
    ∧ (addImage (mkLabel 1 3 m0 0 254 1) 5 7).images = [⟨7, 5, false⟩]
    ∧ getImg c7lbl = .ok (c7lbl.px.2, c7lbl.px.1)
    ∧ (rot270 (rot90 p7)).width = p7.width
    ∧ (rot270 (rot90 p7)).height = p7.height
    ∧ (rot270 (rot90 p7)).pix 1 2 = p7.pix 1 2 :=
  c7_orientation_round_trip 1 3 m0 0 254 1 (by norm_num) 5 7 c7lbl (by with_unfolding_all decide)
    (by with_unfolding_all decide) p7 1 2 (by with_unfolding_all decide) (by with_unfolding_all decide)

/-- C8 (counterexample).  The claim says the first placed item's x equals
`contentBoxLeft + floor(W/2 - totalPlacementWidth/2)`.  On `c8lbl` the
actual placement (one 81-px indicator) has total placement width 81, so
the claimed x is `0 + floor(40/2 - 81/2) = -21`, but the code centers with
the stale loop total 8 and places at x = 16. -/
theorem c8_centering_uses_stale_total :
    (make c8lbl).toOption.map
        (fun r => (r.pastes, placedWidth r.pastes c8lbl.spacing))
      = some ([⟨true, 81, 10, 16, 0⟩], 81)
    ∧ usableWidth c8lbl = 40
    ∧ c8lbl.box.1.1 = 0
    ∧ c8lbl.box.1.1 + ⌊(40 : ℚ)/2 - (81 : ℚ)/2⌋ = -21
    ∧ ¬(16 : ℤ) = -21 := by with_unfolding_all decide

/-- C9.  `make` never changes the stored image list: it lays out a slice
copy (line 58), appends the indicator only to that local list, and pastes
resized copies, so the stored sequence after `make` equals the one
before. -/
theorem c9_images_preserved (l r : Label) (h : make l = .ok r) :
    r.images = l.images := by
  unfold make at h
  split at h
  · exact absurd h (by simp)
  · dsimp only at h
    split at h
    · split at h
      · exact absurd h (by simp)
      · simp only [Except.ok.injEq] at h
        subst h; rfl
    · simp only [Except.ok.injEq] at h
      subst h; rfl

/-- Witness for C9 at a concrete successful layout. -/
theorem c9_images_preserved_witness :
    make c9lbl = .ok c9res ∧ c9res.images = c9lbl.images :=
  ⟨by with_unfolding_all decide, c9_images_preserved c9lbl c9res (by with_unfolding_all decide)⟩

/-- C10 (counterexample).  The claim says that when the indicator alone is
wider than the usable width (with non-negative spacing) the shrink loop
removes the indicator and `make` completes with an entirely blank content
box.  On `c10lbl` the indicator (81 px) is wider than the box (30 px) and
spacing is 0, yet the loop's entry total was computed with the overflowing
image's scale factor (8 <= 30), so the loop never runs and `make`
completes with the indicator placed — the placement is not empty. -/
theorem c10_indicator_placed_not_blank :
    usableWidth c10lbl < (dotImg c10lbl).width
    ∧ 0 ≤ c10lbl.spacing
    ∧ fitCountL c10lbl < c10lbl.images.length
    ∧ (make c10lbl).toOption.map (fun r => (r.pastes.length, r.isMade)) = some (1, true)
    ∧ ¬(1 : ℕ) = 0 := by with_unfolding_all decide

/-- C4 (amended).  For a non-empty image list, non-negative spacing and a
non-negative usable width, `make` always returns normally and the shrink
loop runs at most N iterations (not N - 1: the loop can additionally pop
the indicator itself, as the counterexample shows; the placement list
entering the loop has at most fitCount + 1 <= N elements and every
iteration removes one). -/
theorem c4_shrink_loop_terminates_le_n (l : Label) (hne : l.images ≠ [])
    (hs : 0 ≤ l.spacing) (hW : 0 ≤ usableWidth l) :
    ∃ r, make l = .ok r ∧ r.iters ≤ l.images.length := by
  by_cases hk : fitCountL l < l.images.length
  · rw [make_overflow l hne hk]
    unfold shrinkLoop
    obtain ⟨a, b, c, n, hok, hn⟩ := shrinkGo_ok
      ((l.images.take (fitCountL l) ++ [dotImg l]).length + 1)
      (l.images.take (fitCountL l) ++ [dotImg l])
      (pySet (scaleFactors l) ((fitCountL l : ℕ) : ℤ) 1) (staleTotal l)
      (usableWidth l) l.spacing (Nat.lt_succ_self _) hs hW (Or.inl (by simp))
    rw [hok]
    refine ⟨_, rfl, ?_⟩
    show n ≤ l.images.length
    have hklen : (l.images.take (fitCountL l)).length = fitCountL l := by
      rw [List.length_take]
      omega
    simp only [List.length_append, List.length_cons, List.length_nil, hklen] at hn
    omega
  · rw [make_nonoverflow l hne hk]
    exact ⟨_, rfl, Nat.zero_le _⟩

/-- Witness for C4's amended bound at a concrete overflow run. -/
theorem c4_shrink_loop_terminates_le_n_witness :
    ∃ r, make c4lbl = .ok r ∧ r.iters ≤ c4lbl.images.length :=
  c4_shrink_loop_terminates_le_n c4lbl (by with_unfolding_all decide)
    (by with_unfolding_all decide) (by with_unfolding_all decide)

/-- C10 (amended).  Under the claim's conditions (overflow, indicator wider
than the usable width, non-negative spacing) plus a well-formed content box
(non-negative usable width and height, positive image dimensions), `make`
terminates without raising; and whenever the shrink loop actually runs
(its entry total — computed with the overflowed item's scale factor on the
indicator — exceeds the usable width), the loop empties the placement list
entirely, leaving the content box blank.  The counterexample shows the
blank-box conclusion fails as originally stated, when the stale entry
total lets the loop exit immediately with the indicator still placed. -/
theorem c10_overflow_terminates (l : Label)
    (hne : l.images ≠ [])
    (him : ∀ im ∈ l.images, 0 < im.width ∧ 0 < im.height)
    (hk : fitCountL l < l.images.length)
    (hd : usableWidth l < (dotImg l).width)
    (hs : 0 ≤ l.spacing)
    (hW : 0 ≤ usableWidth l)
    (hH : 0 ≤ usableHeight l) :
    ∃ r, make l = .ok r ∧ r.isMade = true
      ∧ (usableWidth l < staleTotal l → r.pastes = l.pastes) := by
  rw [make_overflow l hne hk]
  unfold shrinkLoop
  by_cases hst : staleTotal l ≤ usableWidth l
  · rw [shrinkGo_step_exit _ _ _ _ _ _ hst]
    exact ⟨_, rfl, rfl, fun hc => absurd hc (not_lt.2 hst)⟩
  · have hys : ∀ im ∈ l.images.take (fitCountL l), 0 ≤ im.width :=
      fun im h => le_of_lt (him im (List.mem_of_mem_take h)).1
    have hsf : ∀ f ∈ pySet (scaleFactors l) ((fitCountL l : ℕ) : ℤ) 1, 0 ≤ f := by
      intro f hf
      rcases mem_pySet _ _ _ f hf with hf1 | rfl
      · exact scaleFactors_nonneg l (fun im h => (him im h).2) hH f hf1
      · norm_num
    have hklen : (l.images.take (fitCountL l)).length = fitCountL l := by
      rw [List.length_take]
      omega
    have hfuel : (l.images.take (fitCountL l)).length + 2
        = (l.images.take (fitCountL l) ++ [dotImg l]).length + 1 := by
      simp
    have hlen : (l.images.take (fitCountL l)).length + 1
        ≤ (pySet (scaleFactors l) ((fitCountL l : ℕ) : ℤ) 1).length := by
      rw [length_pySet, hklen]
      unfold scaleFactors
      rw [List.length_map]
      omega
    obtain ⟨b, hb⟩ := shrinkGo_empties (l.images.take (fitCountL l)) (dotImg l)
      (pySet (scaleFactors l) ((fitCountL l : ℕ) : ℤ) 1) (staleTotal l)
      (usableWidth l) l.spacing ((l.images.take (fitCountL l) ++ [dotImg l]).length + 1)
      (le_of_eq hfuel) hlen hW hs hd hys hsf (not_le.1 hst)
    rw [hb]
    refine ⟨_, rfl, rfl, fun _ => ?_⟩
    show l.pastes ++ render (List.zip [] b) _ _ _ = l.pastes
    simp [render]

/-- Witness for C10's amended statement at a concrete run in which the
stale entry total exceeds the usable width, so the loop really empties the
placement list. -/
theorem c10_overflow_terminates_witness :
    ∃ r, make c10wlbl = .ok r ∧ r.isMade = true
      ∧ (usableWidth c10wlbl < staleTotal c10wlbl → r.pastes = c10wlbl.pastes) :=
  c10_overflow_terminates c10wlbl (by with_unfolding_all decide)
    (by with_unfolding_all decide) (by with_unfolding_all decide)
    (by with_unfolding_all decide) (by with_unfolding_all decide)
    (by with_unfolding_all decide) (by with_unfolding_all decide)

/-- C2 (amended).  There is no configuration error anywhere: `set_margins`
records the (degenerate) content box unconditionally, and `make` performs
no defensive check.  With a negative usable width (positive usable height,
positive first-image dimensions, non-negative dot size), the fit count is
0, the indicator is appended and immediately popped, and `make` either
completes normally — made flag set, no pastes, final total `-spacing` — or
raises `IndexError` from popping the already-empty list, depending on
whether `-spacing` is within the (negative) usable width.  It never raises
a configuration error, refuting the claim (see the counterexample). -/
theorem c2_no_validation_behavior (l : Label) (im0 : Img) (rest : List Img)
    (heq : l.images = im0 :: rest)
    (hw0 : 0 < im0.width) (hh0 : 0 < im0.height)
    (hH : 0 < usableHeight l) (hWneg : usableWidth l < 0) (hdot : 0 ≤ l.dotSize) :
    (-l.spacing ≤ usableWidth l →
      make l = .ok { l with isMade := true, iters := 1, finalTotal := -l.spacing })
    ∧ (usableWidth l < -l.spacing → make l = .error .indexError) := by
  have hne : l.images ≠ [] := by
    rw [heq]
    simp
  have hf0 : (0 : ℚ) < (usableHeight l : ℚ) / (im0.height : ℚ) := by
    apply div_pos
    · exact_mod_cast hH
    · exact_mod_cast hh0
  have hcond : ((usableWidth l : ℤ) : ℚ)
      - (im0.width : ℚ) * ((usableHeight l : ℚ) / (im0.height : ℚ)) ≤ 0 := by
    have h1 : (0 : ℚ) < (im0.width : ℚ) * ((usableHeight l : ℚ) / (im0.height : ℚ)) :=
      mul_pos (by exact_mod_cast hw0) hf0
    have h2 : ((usableWidth l : ℤ) : ℚ) < 0 := by exact_mod_cast hWneg
    linarith
  have hk : fitCountL l = 0 := by
    unfold fitCountL scaleFactors
    rw [heq]
    simp only [List.map_cons, List.zip_cons_cons]
    unfold fitGo
    rw [if_pos hcond]
  have hklt : fitCountL l < l.images.length := by
    rw [hk, heq]
    simp
  have hdpos : (0 : ℤ) < (dotImg l).width := by
    unfold dotImg
    dsimp only
    split <;> omega
  have hstale : 0 ≤ staleTotal l := by
    unfold staleTotal totalScaledWidth
    rw [hk, List.take_zero, List.nil_append]
    unfold scaleFactors
    rw [heq]
    simp only [List.map_cons, List.zipWith_cons_cons, List.zipWith_nil_left,
      List.zipWith_nil_right, List.sum_cons, List.sum_nil, add_zero,
      List.length_cons, List.length_nil]
    have hprod : 0 ≤ ((dotImg l).width : ℚ)
        * ((usableHeight l : ℚ) / (im0.height : ℚ)) := by
      apply mul_nonneg
      · exact_mod_cast le_of_lt hdpos
      · exact le_of_lt hf0
    have := pyInt_nonneg_of _ hprod
    omega
  rw [make_overflow l hne hklt]
  unfold shrinkLoop
  rw [hk]
  simp only [List.take_zero, List.nil_append, List.length_cons, List.length_nil]
  rw [shrinkGo_step_pop 1 [dotImg l] _ _ _ _ []
    (by omega) (popPenultimate_single (dotImg l))]
  rw [totalScaledWidth_nil]
  constructor
  · intro hle
    rw [shrinkGo_step_exit 0 [] _ _ _ _ hle]
    show Except.ok _ = _
    simp [render]
  · intro hlt
    have hstep : shrinkGo 1 ([] : List Img)
        (pySet (pySet (scaleFactors l) ((0 : ℕ) : ℤ) 1) ((([] : List Img).length : ℤ) - 1) 1)
        (-l.spacing) (usableWidth l) l.spacing = .error .indexError := by
      conv_lhs => unfold shrinkGo
      rw [if_neg (by omega)]
      rfl
    rw [hstep]

/-- Witness for C2's amended statement at the counterexample configuration,
where `-spacing <= usableWidth` and `make` completes normally. -/
theorem c2_no_validation_behavior_witness :
    make c2lbl = .ok { c2lbl with isMade := true, iters := 1, finalTotal := -c2lbl.spacing } :=
  (c2_no_validation_behavior c2lbl ⟨300, 100, false⟩ [] (by with_unfolding_all decide)
    (by with_unfolding_all decide) (by with_unfolding_all decide)
    (by with_unfolding_all decide) (by with_unfolding_all decide)
    (by with_unfolding_all decide)).1 (by with_unfolding_all decide)

/-- C8 (amended).  For every successful `make` on a label with a blank
raster, non-negative image widths, positive image heights and a
non-negative usable content-box height: the final loop total `T` satisfies
`T <= W`; the i-th placed paste sits at
`contentBoxLeft + floor(W/2 - T/2)` plus the widths-plus-spacing of the
earlier pastes (no trailing spacing), at y = contentBoxTop.  `T` is the
code's `total_scaled_width` at loop exit, which (per the counterexample)
can differ from the actually rendered total width when the loop runs zero
iterations with the indicator weighted by the overflowed item's factor —
that is the one correction to the claim's "total placement width". -/
theorem c8_placement_positions (l r : Label) (hmk : make l = .ok r)
    (hpl : l.pastes = [])
    (him : ∀ im ∈ l.images, 0 ≤ im.width ∧ 0 < im.height)
    (hH : 0 ≤ usableHeight l)
    (i : ℕ) (p : Paste) (hp : r.pastes.get? i = some p) :
    r.finalTotal ≤ usableWidth l
    ∧ p.x = l.box.1.1 + ⌊(usableWidth l : ℚ) / 2 - (r.finalTotal : ℚ) / 2⌋
          + ((r.pastes.take i).map (fun q => q.w + l.spacing)).sum
    ∧ p.y = l.box.1.2 := by
  have hne : l.images ≠ [] := by
    intro h0
    rw [show make l = .error .noImages from by simp [make, h0]] at hmk
    exact Except.noConfusion hmk
  by_cases hk : fitCountL l < l.images.length
  · rw [make_overflow l hne hk] at hmk
    unfold shrinkLoop at hmk
    cases hok : shrinkGo ((l.images.take (fitCountL l) ++ [dotImg l]).length + 1)
        (l.images.take (fitCountL l) ++ [dotImg l])
        (pySet (scaleFactors l) ((fitCountL l : ℕ) : ℤ) 1) (staleTotal l)
        (usableWidth l) l.spacing with
    | error e =>
        rw [hok] at hmk
        exact absurd hmk (by simp)
    | ok q =>
        obtain ⟨a, b, c, n⟩ := q
        rw [hok] at hmk
        simp only [Except.ok.injEq] at hmk
        have hc : c ≤ usableWidth l := shrinkGo_exit_le _ _ _ _ _ _ _ _ _ _ hok
        have hx0 : pyInt ((usableWidth l : ℚ) / 2 - (c : ℚ) / 2)
            = ⌊(usableWidth l : ℚ) / 2 - (c : ℚ) / 2⌋ := by
          apply pyInt_eq_floor
          have : ((c : ℤ) : ℚ) ≤ ((usableWidth l : ℤ) : ℚ) := by exact_mod_cast hc
          linarith
        subst hmk
        simp only [hpl, List.nil_append] at hp ⊢
        rw [List.get?_eq_some] at hp
        obtain ⟨hlen, rfl⟩ := hp
        obtain ⟨hgx, hgy⟩ := render_get (a.zip b)
          (pyInt ((usableWidth l : ℚ) / 2 - (c : ℚ) / 2) + l.box.1.1) l.box.1.2 l.spacing
          i hlen
        refine ⟨hc, ?_, hgy⟩
        rw [hgx, hx0]
        ring
  · rw [make_nonoverflow l hne hk] at hmk
    simp only [Except.ok.injEq] at hmk
    have hkeq : fitCountL l = l.images.length := by
      have h1 : fitCountL l ≤ l.images.length := by
        have h2 := (fitGo_char (l.images.zip (scaleFactors l)) ((usableWidth l : ℤ) : ℚ)
          l.spacing).1
        rw [length_zip_scaleFactors] at h2
        exact h2
      omega
    have htake : l.images.take (fitCountL l) = l.images := by
      rw [hkeq]
      exact List.take_length _
    have hlt := totalScaledWidth_lt_of_allfit l hne him hH hkeq
    have hc : totalScaledWidth (l.images.take (fitCountL l)) (scaleFactors l) l.spacing
        ≤ usableWidth l := by
      rw [htake]
      omega
    have hx0 : pyInt ((usableWidth l : ℚ) / 2
          - (totalScaledWidth (l.images.take (fitCountL l)) (scaleFactors l) l.spacing : ℚ) / 2)
        = ⌊(usableWidth l : ℚ) / 2
          - (totalScaledWidth (l.images.take (fitCountL l)) (scaleFactors l) l.spacing : ℚ) / 2⌋ := by
      apply pyInt_eq_floor
      have : ((totalScaledWidth (l.images.take (fitCountL l)) (scaleFactors l) l.spacing : ℤ) : ℚ)
          ≤ ((usableWidth l : ℤ) : ℚ) := by exact_mod_cast hc
      linarith
    subst hmk
    simp only [hpl, List.nil_append] at hp ⊢
    rw [List.get?_eq_some] at hp
    obtain ⟨hlen, rfl⟩ := hp
    obtain ⟨hgx, hgy⟩ := render_get ((l.images.take (fitCountL l)).zip (scaleFactors l))
      (pyInt ((usableWidth l : ℚ) / 2
        - (totalScaledWidth (l.images.take (fitCountL l)) (scaleFactors l) l.spacing : ℚ) / 2)
        + l.box.1.1) l.box.1.2 l.spacing i hlen
    refine ⟨hc, ?_, hgy⟩
    rw [hgx, hx0]
    ring

/-- Witness for C8's amended statement at a concrete all-fit run (one
12 x 10 image on the 30 x 10 box, placed at x = 9 = 0 + floor(30/2 - 12/2)). -/
theorem c8_placement_positions_witness :
    c8wres.finalTotal ≤ usableWidth c8wlbl
    ∧ (⟨false, 12, 10, 9, 0⟩ : Paste).x
        = c8wlbl.box.1.1 + ⌊(usableWidth c8wlbl : ℚ) / 2 - (c8wres.finalTotal : ℚ) / 2⌋
          + ((c8wres.pastes.take 0).map (fun q => q.w + c8wlbl.spacing)).sum
    ∧ (⟨false, 12, 10, 9, 0⟩ : Paste).y = c8wlbl.box.1.2 :=
  c8_placement_positions c8wlbl c8wres (by with_unfolding_all decide)
    (by with_unfolding_all decide) (by with_unfolding_all decide)
    (by with_unfolding_all decide) 0 ⟨false, 12, 10, 9, 0⟩ (by with_unfolding_all decide)

end LegoLabels
